import Mathlib

/-!
Verification of the auto-coin cross-venue arbitrage decision engine.

The repository monitors mark prices of the same perpetual contract on two
venues (Orderly and Gate dot io), ranks the relative divergence, opens an
offsetting position pair when the divergence crosses a threshold, watches
for the price ordering to revert, closes both legs and reports PnL.

Numbers are embedded as rationals; the JavaScript functions Math dot round,
Math dot min and Math dot max are modelled exactly (round = floor after
adding one half, rounding ties toward positive infinity).  Maps are modelled
as association functions built by the same last-write-wins fold the source
performs, and JavaScript Set iteration is modelled as a first-occurrence
fold.  External calls (HTTP fetches, order gateways, position queries) are
modelled as explicit oracle records passed to the decision functions.
-/

namespace AutoCoin

/-- JavaScript Math round: rounds to the nearest integer, ties toward
positive infinity. -/
def jsRound (x : ℚ) : ℤ := ⌊x + 1/2⌋

/-! ## Quantity utilities

Embedding of roundQuantityByPrice and calculateQuantityFromAmount from
src slash action slash quantityUtils (also concatenated into dataMatcher,
lines 137 to 168, and duplicated as CommonUtils quantityUtils roundByPrice
in part 004, lines 42 to 64). -/

/-- Rounds a quantity to the step that the source associates with the
price band (price at most 0.1 dollar: steps of ten units; up to 1 dollar:
whole units; up to 10: one decimal; up to 3000: two decimals; up to
50000: three decimals; otherwise five decimals). -/
def roundQuantityByPrice (quantity price : ℚ) : ℚ :=
  if price ≤ 1/10 then (jsRound (quantity / 10) : ℚ) * 10
  else if price ≤ 1 then (jsRound quantity : ℚ)
  else if price ≤ 10 then (jsRound (quantity * 10) : ℚ) / 10
  else if price ≤ 3000 then (jsRound (quantity * 100) : ℚ) / 100
  else if price ≤ 50000 then (jsRound (quantity * 1000) : ℚ) / 1000
  else (jsRound (quantity * 100000) : ℚ) / 100000

/-- Divides the order budget by the price and rounds the raw quantity with
roundQuantityByPrice. -/
def calculateQuantityFromAmount (amount price : ℚ) : ℚ :=
  roundQuantityByPrice (amount / price) price

/-! ## Order sizing

Embedding of the order-amount computation of executeAutoTrading
(marketMonitor, lines 183 to 187) and of the buy-amount clamp of
executeAutoBuy (autoBuy, lines 80 to 91).  The minimum order amount in
marketMonitor is the constant 12. -/

/-- Order amount used by executeAutoTrading: the position percentage of the
free collateral, first capped at the full collateral, then raised to the
minimum order amount of 12. -/
def computeOrderAmount (freeCollateral percent : ℚ) : ℚ :=
  let minAmount : ℚ := 12
  let maxAmount : ℚ := freeCollateral
  max (min (freeCollateral * percent) maxAmount) minAmount

/-- Buy amount used by executeAutoBuy: percentage of the available balance,
capped at maxAmount, raised to minAmount, and finally raised to 10 when it
is still below 10. -/
def computeBuyAmount (availableBalance percentage minAmount maxAmount : ℚ) : ℚ :=
  let calculatedAmount := availableBalance * percentage
  let buyAmount := min calculatedAmount maxAmount
  let buyAmount := max buyAmount minAmount
  if buyAmount < 10 then 10 else buyAmount

/-! ## Divergence samples and the running maximum

Embedding of the maxSample update of PriceMonitor executeMonitoring
(priceMonitor, lines 55 to 68).  The source timestamp field carries real
time and is omitted. -/

/-- One per-tick top divergence sample, as stored by the price monitor. -/
structure HighestPriceDifferenceData where
  coin : String
  gateio_price : ℚ
  orderly_price : ℚ
  price_difference : ℚ
  price_difference_percent : ℚ
deriving DecidableEq

/-- The stored-maximum update of executeMonitoring: the stored sample is
replaced exactly when there is none yet or the incoming percent is strictly
greater. -/
def updateHighestPriceDifference (cur : Option HighestPriceDifferenceData)
    (next : HighestPriceDifferenceData) : Option HighestPriceDifferenceData :=
  match cur with
  | none => some next
  | some h =>
    if next.price_difference_percent > h.price_difference_percent then some next else some h

/-- The stored maximum after a whole sequence of monitoring ticks, starting
from the initial null state. -/
def runHighestPriceDifference (ticks : List HighestPriceDifferenceData) :
    Option HighestPriceDifferenceData :=
  ticks.foldl updateHighestPriceDifference none

/-! ## Position entry prices and the reversal check

Embedding of PositionManager (positionManager).  The entry-price ledger maps
a symbol to the pair of confirmed entry prices. -/

/-- Entry prices recorded when a position pair is opened. -/
structure PositionEntryPrice where
  orderlyPrice : ℚ
  gateioPrice : ℚ
deriving DecidableEq

/-- The reversal test of checkPositionForClose (positionManager, lines 260
to 263) and checkGateIOPositionForClose (lines 338 to 341): compare the
boolean entryOrderlyHigher with the boolean currentOrderlyHigher. -/
def priceReversalDetected (entry : PositionEntryPrice)
    (currentOrderlyPrice currentGateioPrice : ℚ) : Bool :=
  let entryOrderlyHigher := decide (entry.orderlyPrice > entry.gateioPrice)
  let currentOrderlyHigher := decide (currentOrderlyPrice > currentGateioPrice)
  entryOrderlyHigher != currentOrderlyHigher

/-- Venue of a close order. -/
inductive CloseVenue
  | orderly
  | gateio
deriving DecidableEq

/-- A close order submitted while exiting a position pair. -/
structure CloseOrder where
  venue : CloseVenue
  symbol : String
deriving DecidableEq

/-- External outcomes seen by checkPositionForClose: the market-data lookup
for the current Orderly price, the current Gate price fetch, whether the
Orderly close order succeeded, and the fill price when the Gate close order
went through. -/
structure CloseEnv where
  currentOrderlyPrice : Option ℚ
  currentGateioPrice : Option ℚ
  orderlyCloseSucceeds : Bool
  gateioCloseFillPrice : Option ℚ

/-- Decision structure of checkPositionForClose (positionManager, lines 242
to 320): when both current prices are available and the reversal test
fires, the Orderly close order is submitted, the Gate close order follows
on the success path, and the entry-price record is removed; otherwise
nothing happens.  Returns the submitted close orders and whether the
entry-price record was removed. -/
def checkPositionForClose (symbol : String) (entry : PositionEntryPrice)
    (env : CloseEnv) : List CloseOrder × Bool :=
  match env.currentOrderlyPrice, env.currentGateioPrice with
  | some co, some cg =>
    if priceReversalDetected entry co cg then
      let orders := [⟨CloseVenue.orderly, symbol⟩]
      let orders :=
        if env.orderlyCloseSucceeds then
          match env.gateioCloseFillPrice with
          | some _ => orders ++ [⟨CloseVenue.gateio, symbol⟩]
          | none => orders
        else orders
      (orders, true)
    else ([], false)
  | _, _ => ([], false)

/-- Modelled from the spec: the strict sign flip that the spec demands for
the exit decision, with venue A the Orderly leg and venue B the Gate leg.
Written for comparison with priceReversalDetected. -/
def strictSignFlip (entryA entryB currentA currentB : ℚ) : Prop :=
  (0 < entryA - entryB ∧ currentA - currentB < 0) ∨
    (entryA - entryB < 0 ∧ 0 < currentA - currentB)

/-! ## Profit and loss on close

Embedding of calculateAndPrintProfitLoss (positionManager, lines 546 to
582).  The fee rates are the source constants 0.00018 for Orderly and
0.00016 for Gate. -/

/-- All intermediate figures of calculateAndPrintProfitLoss. -/
structure ProfitLossBreakdown where
  orderlyProfit : ℚ
  gateioProfit : ℚ
  totalProfit : ℚ
  orderlyFee : ℚ
  gateioFee : ℚ
  totalFee : ℚ
  netProfit : ℚ

/-- The profit computation: the leg direction is re-derived from the entry
prices (Orderly is the short leg exactly when its entry price was strictly
higher), each leg earns its direction-signed price move times the quantity,
and each venue charges fee rate times quantity times the sum of its entry
and exit prices. -/
def calculateProfitLoss (entryOrderlyPrice entryGateioPrice
    currentOrderlyPrice currentGateioPrice positionQuantity : ℚ) :
    ProfitLossBreakdown :=
  let entryOrderlyHigher := entryOrderlyPrice > entryGateioPrice
  let orderlyProfit :=
    if entryOrderlyHigher then (entryOrderlyPrice - currentOrderlyPrice) * positionQuantity
    else (currentOrderlyPrice - entryOrderlyPrice) * positionQuantity
  let gateioProfit :=
    if entryOrderlyHigher then (currentGateioPrice - entryGateioPrice) * positionQuantity
    else (entryGateioPrice - currentGateioPrice) * positionQuantity
  let totalProfit := orderlyProfit + gateioProfit
  let orderlyFee := (entryOrderlyPrice + currentOrderlyPrice) * positionQuantity * (18/100000)
  let gateioFee := (entryGateioPrice + currentGateioPrice) * positionQuantity * (16/100000)
  let totalFee := orderlyFee + gateioFee
  { orderlyProfit := orderlyProfit
    gateioProfit := gateioProfit
    totalProfit := totalProfit
    orderlyFee := orderlyFee
    gateioFee := gateioFee
    totalFee := totalFee
    netProfit := totalProfit - totalFee }

/-- Modelled from the spec: net profit written venue-agnostically, with the
short leg the one whose entry price is strictly greater.  The short leg
earns entry minus exit, the long leg earns exit minus entry, and each leg
pays fee rate times quantity times the sum of its entry and exit prices. -/
def directionSignedNet (shortEntry shortExit longEntry longExit
    quantity shortFeeRate longFeeRate : ℚ) : ℚ :=
  (shortEntry - shortExit) * quantity + (longExit - longEntry) * quantity
    - ((shortEntry + shortExit) * quantity * shortFeeRate
        + (longEntry + longExit) * quantity * longFeeRate)

/-! ## Map and Set models

The source builds one JavaScript Map per venue by setting every entry under
its normalized symbol (last write wins) and then iterates a Set built from
both key lists (first occurrence wins). -/

/-- One set operation on a JavaScript Map modelled as a lookup function. -/
def jsMapSet {α : Type} (m : String → Option α) (key : String) (v : α) :
    String → Option α :=
  fun s => if s = key then some v else m s

/-- The venue map built by the source: every item is stored under its key,
in list order, so a later item with the same key overwrites an earlier
one. -/
def jsMapOf {α : Type} (keyOf : α → String) (data : List α) :
    String → Option α :=
  data.foldl (fun m item => jsMapSet m (keyOf item) item) (fun _ => none)

/-- Recursive description of jsMapOf: the last item of the list carrying
the requested key. -/
def lastAssoc {α : Type} (keyOf : α → String) : List α → String → Option α
  | [], _ => none
  | item :: rest, s =>
    match lastAssoc keyOf rest s with
    | some v => some v
    | none => if s = keyOf item then some item else none

/-- One insertion into a JavaScript Set modelled as a duplicate-free list in
first-occurrence order. -/
def jsSetInsert (l : List String) (s : String) : List String :=
  if s ∈ l then l else l ++ [s]

/-- The JavaScript Set of a key list, in first-occurrence order. -/
def jsSetOf (keys : List String) : List String :=
  keys.foldl jsSetInsert []

/-! ## Venue tickers and the symbol matcher

Embedding of matchSymbolData and analyzePriceDifference (dataMatcher, lines
26 to 73; duplicated as CommonUtils dataMatching in part 004, lines 93 to
167).  The mark price arrives as a decimal string on the Gate side and is
parsed with parseFloat; the parse is modelled as carrying the rational
directly.  The two symbol normalizers are imported functions in the source
and are passed as parameters here. -/

/-- One Gate ticker row: raw contract name, mark price, quote volume. -/
structure GateioTicker where
  name : String
  mark_price : ℚ
  quote_volume : ℚ
deriving DecidableEq

/-- One Orderly ticker row: raw symbol, mark price, trailing 24h amount. -/
structure OrderlyTicker where
  symbol : String
  mark_price : ℚ
  amount24h : ℚ
deriving DecidableEq

/-- A matched pair for one canonical symbol. -/
structure MatchedSymbolData where
  symbol : String
  gateio_mark_price : ℚ
  orderly_mark_price : ℚ
deriving DecidableEq

/-- A ranked price comparison entry. -/
structure PriceComparisonData where
  symbol : String
  gateio_price : ℚ
  orderly_price : ℚ
  price_difference : ℚ
  price_difference_percent : ℚ
deriving DecidableEq

/-- matchSymbolData: build one last-write-wins map per venue keyed by the
normalized symbol, iterate the Set of all keys, and emit one matched record
for every symbol found in both maps, carrying both mark prices. -/
def matchSymbolData (normG normO : String → String)
    (gateioData : List GateioTicker) (orderlyData : List OrderlyTicker) :
    List MatchedSymbolData :=
  let gateioMap := jsMapOf (fun it => normG it.name) gateioData
  let orderlyMap := jsMapOf (fun it => normO it.symbol) orderlyData
  let commonSymbols := jsSetOf
    (gateioData.map (fun it => normG it.name) ++
      orderlyData.map (fun it => normO it.symbol))
  commonSymbols.filterMap (fun s =>
    match gateioMap s, orderlyMap s with
    | some gateioItem, some orderlyItem =>
      some ⟨s, gateioItem.mark_price, orderlyItem.mark_price⟩
    | _, _ => none)

/-- The per-pair divergence record of analyzePriceDifference: absolute
difference, and percent difference with the Gate price as the reference
denominator. -/
def toPriceComparison (item : MatchedSymbolData) : PriceComparisonData :=
  { symbol := item.symbol
    gateio_price := item.gateio_mark_price
    orderly_price := item.orderly_mark_price
    price_difference := |item.gateio_mark_price - item.orderly_mark_price|
    price_difference_percent :=
      |item.gateio_mark_price - item.orderly_mark_price| / item.gateio_mark_price * 100 }

/-- Comparator of the source sort: an entry sorts before another when its
percent difference is at least the other one. -/
def descendingPercent (a b : PriceComparisonData) : Bool :=
  decide (b.price_difference_percent ≤ a.price_difference_percent)

/-- analyzePriceDifference: map every matched pair to its divergence record
and sort descending by percent difference. -/
def analyzePriceDifference (matchedData : List MatchedSymbolData) :
    List PriceComparisonData :=
  (matchedData.map toPriceComparison).mergeSort descendingPercent

/-! ## Volume filter

Embedding of filterCommonCoinsWithVolume (commonCoinFilter, lines 14 to 65;
duplicated in part 004, lines 177 to 240). -/

/-- A common coin that passed the volume filter. -/
structure CommonCoinData where
  symbol : String
  gateio_price : ℚ
  orderly_price : ℚ
  avgVolume : ℚ
  gateio_volume : ℚ
  orderly_volume : ℚ
deriving DecidableEq

/-- filterCommonCoinsWithVolume: the same two maps and key Set as the
matcher; a common symbol is kept only when the Gate quote volume and the
Orderly 24h amount each reach minAmount, and the kept record carries the
arithmetic mean of the two volumes. -/
def filterCommonCoinsWithVolume (normG normO : String → String)
    (gateioData : List GateioTicker) (orderlyData : List OrderlyTicker)
    (minAmount : ℚ) : List CommonCoinData :=
  let gateioMap := jsMapOf (fun it => normG it.name) gateioData
  let orderlyMap := jsMapOf (fun it => normO it.symbol) orderlyData
  let commonSymbols := jsSetOf
    (gateioData.map (fun it => normG it.name) ++
      orderlyData.map (fun it => normO it.symbol))
  commonSymbols.filterMap (fun s =>
    match gateioMap s, orderlyMap s with
    | some gateioItem, some orderlyItem =>
      if minAmount ≤ gateioItem.quote_volume ∧ minAmount ≤ orderlyItem.amount24h then
        some ⟨s, gateioItem.mark_price, orderlyItem.mark_price,
          (gateioItem.quote_volume + orderlyItem.amount24h) / 2,
          gateioItem.quote_volume, orderlyItem.amount24h⟩
      else none
    | _, _ => none)

/-! ## Automatic entry

Embedding of the decision structure of executeAutoTrading (marketMonitor,
lines 170 to 493).  Every awaited external call is an oracle field of
TradingEnv; the function returns the submitted orders and the updated
entry-price ledger.  The Orderly symbol derived from the coin name is a
parameter, like the normalizers. -/

/-- Venue of an entry order. -/
inductive Venue
  | orderly
  | gateio
deriving DecidableEq

/-- Side of an entry order. -/
inductive Side
  | buy
  | sell
deriving DecidableEq

/-- An order submitted by the entry pipeline. -/
structure OrderEvent where
  venue : Venue
  side : Side
  symbol : String
deriving DecidableEq

/-- One row of the Orderly position query. -/
structure PositionRow where
  symbol : String
  position_qty : ℚ
  average_open_price : ℚ
deriving DecidableEq

/-- External outcomes seen by executeAutoTrading: the Gate quantity
computation, success of each order submission, the Orderly market-data
lookup, the post-entry position query, and the Gate entry-price query. -/
structure TradingEnv where
  gateioQuantity : Option ℚ
  orderlyBuySucceeds : Bool
  gateioSellSucceeds : Bool
  gateioBuySucceeds : Bool
  orderlyMarkPrice : Option ℚ
  orderlySellSucceeds : Bool
  confirmedPosition : Option PositionRow
  gateioEntryPrice : Option ℚ

/-- Confirmed Orderly entry price: the average open price of the queried
position, falling back to the snapshot price when the field is falsy. -/
def confirmedOrderlyPrice (p : PositionRow) (snapshot : ℚ) : ℚ :=
  if p.average_open_price = 0 then snapshot else p.average_open_price

/-- executeAutoTrading: skip when a nonzero position already exists for the
symbol; when the Gate price is strictly higher, buy on Orderly and sell on
Gate (with an extra Orderly sync buy after a successful Gate sell); in
every other case, buy on Gate first and then sell on Orderly.  After a
successful entry the ledger records the confirmed entry prices when the
position query returns one, and the triggering snapshot prices
otherwise. -/
def executeAutoTrading (toSym : String → String)
    (hd : HighestPriceDifferenceData) (rows : List PositionRow)
    (env : TradingEnv) (ledger : String → Option PositionEntryPrice) :
    List OrderEvent × (String → Option PositionEntryPrice) :=
  let coinSymbol := toSym hd.coin
  let existingPosition :=
    rows.find? (fun p => decide (p.symbol = coinSymbol) && decide (p.position_qty ≠ 0))
  if hd.gateio_price > hd.orderly_price then
    match existingPosition with
    | some _ => ([], ledger)
    | none =>
      match env.gateioQuantity with
      | none => ([], ledger)
      | some _ =>
        let orders := [⟨Venue.orderly, Side.buy, coinSymbol⟩]
        if env.orderlyBuySucceeds then
          let orders := orders ++ [⟨Venue.gateio, Side.sell, coinSymbol⟩]
          let orders :=
            if env.gateioSellSucceeds then orders ++ [⟨Venue.orderly, Side.buy, coinSymbol⟩]
            else orders
          match env.confirmedPosition with
          | some p =>
            (orders, jsMapSet ledger coinSymbol
              ⟨confirmedOrderlyPrice p hd.orderly_price,
                env.gateioEntryPrice.getD hd.gateio_price⟩)
          | none =>
            (orders, jsMapSet ledger coinSymbol ⟨hd.orderly_price, hd.gateio_price⟩)
        else (orders, ledger)
  else
    match existingPosition with
    | some _ => ([], ledger)
    | none =>
      let orders := [⟨Venue.gateio, Side.buy, coinSymbol⟩]
      if env.gateioBuySucceeds then
        match env.orderlyMarkPrice with
        | none => (orders, ledger)
        | some _ =>
          let orders := orders ++ [⟨Venue.orderly, Side.sell, coinSymbol⟩]
          if env.orderlySellSucceeds then
            match env.confirmedPosition with
            | some p =>
              (orders, jsMapSet ledger coinSymbol
                ⟨confirmedOrderlyPrice p hd.orderly_price,
                  env.gateioEntryPrice.getD hd.gateio_price⟩)
            | none =>
              (orders, jsMapSet ledger coinSymbol ⟨hd.orderly_price, hd.gateio_price⟩)
          else (orders, ledger)
      else (orders, ledger)

/-! ## Helper lemmas on the map and set models -/

theorem foldl_jsMapSet {α : Type} (keyOf : α → String) (data : List α) :
    ∀ (m : String → Option α) (s : String),
      (data.foldl (fun acc item => jsMapSet acc (keyOf item) item) m) s =
        match lastAssoc keyOf data s with
        | some v => some v
        | none => m s := by
  induction data with
  | nil => intro m s; rfl
  | cons item rest ih =>
    intro m s
    simp only [List.foldl_cons]
    rw [ih]
    simp only [lastAssoc]
    cases h : lastAssoc keyOf rest s with
    | some v => rfl
    | none =>
      simp only [jsMapSet]
      by_cases hs : s = keyOf item <;> simp [hs]

theorem jsMapOf_eq_lastAssoc {α : Type} (keyOf : α → String) (data : List α)
    (s : String) : jsMapOf keyOf data s = lastAssoc keyOf data s := by
  rw [jsMapOf, foldl_jsMapSet]
  cases lastAssoc keyOf data s <;> rfl

theorem lastAssoc_isSome_iff {α : Type} (keyOf : α → String) (l : List α)
    (s : String) : (lastAssoc keyOf l s).isSome ↔ s ∈ l.map keyOf := by
  induction l with
  | nil => simp [lastAssoc]
  | cons item rest ih =>
    simp only [lastAssoc, List.map_cons, List.mem_cons]
    cases h : lastAssoc keyOf rest s with
    | some v =>
      rw [h] at ih
      simp only [Option.isSome_some, true_iff] at ih
      simp [ih]
    | none =>
      rw [h] at ih
      simp only [Option.isSome_none, Bool.false_eq_true, false_iff] at ih
      by_cases hs : s = keyOf item <;> simp [hs, ih]

theorem lastAssoc_mem {α : Type} (keyOf : α → String) (l : List α) (s : String)
    (v : α) (h : lastAssoc keyOf l s = some v) : v ∈ l ∧ keyOf v = s := by
  induction l with
  | nil => simp [lastAssoc] at h
  | cons item rest ih =>
    simp only [lastAssoc] at h
    cases hr : lastAssoc keyOf rest s with
    | some w =>
      rw [hr] at h
      obtain rfl : w = v := by injection h
      obtain ⟨hmem, hkey⟩ := ih hr
      exact ⟨List.mem_cons_of_mem item hmem, hkey⟩
    | none =>
      rw [hr] at h
      by_cases hs : s = keyOf item
      · rw [if_pos hs] at h
        obtain rfl : item = v := by injection h
        exact ⟨List.mem_cons_self _ _, hs.symm⟩
      · rw [if_neg hs] at h
        exact absurd h (by simp)

theorem foldl_jsSetInsert_nodup (keys : List String) :
    ∀ acc : List String, acc.Nodup → (keys.foldl jsSetInsert acc).Nodup := by
  induction keys with
  | nil => intro acc h; exact h
  | cons k rest ih =>
    intro acc h
    simp only [List.foldl_cons]
    apply ih
    unfold jsSetInsert
    by_cases hk : k ∈ acc
    · simp [hk, h]
    · simp only [if_neg hk]
      simp [List.nodup_append, h, hk]

theorem jsSetOf_nodup (keys : List String) : (jsSetOf keys).Nodup :=
  foldl_jsSetInsert_nodup keys [] List.nodup_nil

theorem mem_foldl_jsSetInsert (keys : List String) :
    ∀ (acc : List String) (s : String),
      s ∈ keys.foldl jsSetInsert acc ↔ s ∈ acc ∨ s ∈ keys := by
  induction keys with
  | nil => simp
  | cons k rest ih =>
    intro acc s
    simp only [List.foldl_cons, ih, List.mem_cons]
    unfold jsSetInsert
    by_cases hk : k ∈ acc
    · rw [if_pos hk]
      constructor
      · rintro (h | h)
        · exact Or.inl h
        · exact Or.inr (Or.inr h)
      · rintro (h | rfl | h)
        · exact Or.inl h
        · exact Or.inl hk
        · exact Or.inr h
    · rw [if_neg hk]
      simp only [List.mem_append, List.mem_singleton]
      tauto

theorem mem_jsSetOf (keys : List String) (s : String) :
    s ∈ jsSetOf keys ↔ s ∈ keys := by
  rw [jsSetOf, mem_foldl_jsSetInsert]
  simp

theorem filterMap_key_sublist {β : Type} (f : String → Option β) (key : β → String)
    (hf : ∀ s m, f s = some m → key m = s) (l : List String) :
    ((l.filterMap f).map key).Sublist l := by
  induction l with
  | nil => simp
  | cons s rest ih =>
    cases h : f s with
    | none =>
      rw [List.filterMap_cons_none h]
      exact ih.cons s
    | some m =>
      rw [List.filterMap_cons_some h, List.map_cons, hf s m h]
      exact ih.cons₂ s

theorem mem_filterMap_key {β : Type} (f : String → Option β) (key : β → String)
    (hf : ∀ s m, f s = some m → key m = s) (l : List String) (s : String) :
    (∃ m ∈ l.filterMap f, key m = s) ↔ s ∈ l ∧ (f s).isSome := by
  constructor
  · rintro ⟨m, hm, rfl⟩
    rcases List.mem_filterMap.mp hm with ⟨a, ha, hfa⟩
    rw [hf a m hfa]
    exact ⟨ha, by rw [hfa]; rfl⟩
  · rintro ⟨hl, hsome⟩
    rcases Option.isSome_iff_exists.mp hsome with ⟨m, hm⟩
    exact ⟨m, List.mem_filterMap.mpr ⟨s, hl, hm⟩, hf s m hm⟩

/-- The reversal flag of the source, as a proposition: the two booleans in
the comparison differ. -/
theorem priceReversalDetected_iff (entry : PositionEntryPrice) (co cg : ℚ) :
    priceReversalDetected entry co cg = true ↔
      ¬ ((entry.orderlyPrice > entry.gateioPrice) ↔ (co > cg)) := by
  unfold priceReversalDetected
  simp [bne_iff_ne, decide_eq_decide]

/-! ## Claim theorems -/

/-- Claim C6: across any sequence of monitoring ticks, the stored
maximum-divergence sample is replaced only when the incoming percent is
strictly greater than the stored one; when the incoming percent is at most
the stored one (ties included) the first-seen stored sample is retained
unchanged. -/
theorem maxSample_tie_keeps_first_seen (ticks : List HighestPriceDifferenceData)
    (stored next : HighestPriceDifferenceData)
    (hrun : runHighestPriceDifference ticks = some stored) :
    (next.price_difference_percent ≤ stored.price_difference_percent →
      runHighestPriceDifference (ticks ++ [next]) = some stored)
    ∧ (stored.price_difference_percent < next.price_difference_percent →
      runHighestPriceDifference (ticks ++ [next]) = some next) := by
  have h1 : runHighestPriceDifference (ticks ++ [next]) =
      updateHighestPriceDifference (runHighestPriceDifference ticks) next := by
    simp [runHighestPriceDifference, List.foldl_append]
  rw [h1, hrun]
  constructor
  · intro hle
    simp [updateHighestPriceDifference, not_lt.mpr hle]
  · intro hlt
    simp [updateHighestPriceDifference, hlt]

/-- First tie sample for the claim C6 witness. -/
def tieSampleA : HighestPriceDifferenceData :=
  ⟨"AAA", 100, 101, 1, 1⟩

/-- Second tie sample for the claim C6 witness: same percent, different
coin. -/
def tieSampleB : HighestPriceDifferenceData :=
  ⟨"BBB", 200, 202, 2, 1⟩

/-- Claim C6 witness: a tick tying the stored percent leaves the first-seen
sample in place. -/
theorem maxSample_tie_keeps_first_seen_witness :
    runHighestPriceDifference [tieSampleA] = some tieSampleA ∧
    tieSampleB.price_difference_percent ≤ tieSampleA.price_difference_percent ∧
    runHighestPriceDifference ([tieSampleA] ++ [tieSampleB]) = some tieSampleA := by
  have hA : runHighestPriceDifference [tieSampleA] = some tieSampleA := by
    simp [runHighestPriceDifference, updateHighestPriceDifference]
  refine ⟨hA, by norm_num [tieSampleA, tieSampleB], ?_⟩
  exact (maxSample_tie_keeps_first_seen [tieSampleA] tieSampleA tieSampleB hA).1
    (by norm_num [tieSampleA, tieSampleB])

/-- Claim C10: for a positive budget and a price in the lowest band
(0 < price, price at most 0.1), the computed quantity is the JavaScript
rounding of one tenth of the raw quantity scaled back by ten, hence always
an integer multiple of ten, and it is zero whenever the raw quantity
amount / price is below five. -/
theorem calculateQuantityFromAmount_low_price_band (amount price : ℚ)
    (hamount : 0 < amount) (hprice : 0 < price) (hband : price ≤ 1/10) :
    calculateQuantityFromAmount amount price =
      (jsRound ((amount / price) / 10) : ℚ) * 10
    ∧ (∃ k : ℤ, calculateQuantityFromAmount amount price = 10 * (k : ℚ))
    ∧ (amount / price < 5 → calculateQuantityFromAmount amount price = 0) := by
  have heq : calculateQuantityFromAmount amount price =
      (jsRound ((amount / price) / 10) : ℚ) * 10 := by
    rw [calculateQuantityFromAmount, roundQuantityByPrice, if_pos hband]
  refine ⟨heq, ⟨jsRound ((amount / price) / 10), by rw [heq]; ring⟩, ?_⟩
  intro hlt
  have hratio : 0 < amount / price := div_pos hamount hprice
  have hzero : jsRound ((amount / price) / 10) = 0 := by
    rw [jsRound, Int.floor_eq_zero_iff]
    constructor
    · positivity
    · have : (amount / price) / 10 < 1/2 := by linarith
      linarith
  rw [heq, hzero]
  norm_num

/-- Claim C10 witness: budget 0.4 at price 0.1 gives raw quantity 4, which
rounds to order quantity zero although the budget is strictly positive. -/
theorem calculateQuantityFromAmount_low_price_band_witness :
    0 < (2/5 : ℚ) ∧ 0 < (1/10 : ℚ) ∧ (1/10 : ℚ) ≤ 1/10 ∧
    (2/5 : ℚ) / (1/10) < 5 ∧
    calculateQuantityFromAmount (2/5) (1/10) = 0 := by
  refine ⟨by norm_num, by norm_num, le_refl _, by norm_num, ?_⟩
  exact (calculateQuantityFromAmount_low_price_band (2/5) (1/10)
    (by norm_num) (by norm_num) (le_refl _)).2.2 (by norm_num)

/-- Claim C5 counterexample: with free collateral 5 and position percentage
0.2, the computed order amount is the minimum 12, which is strictly above
the available collateral, so the amount does not lie within the interval
from the minimum order amount up to the available collateral. -/
theorem computeOrderAmount_exceeds_collateral :
    computeOrderAmount 5 (1/5) = 12 ∧ ¬ computeOrderAmount 5 (1/5) ≤ 5 := by
  have h : computeOrderAmount 5 (1/5) = 12 := by
    rw [computeOrderAmount]
    norm_num
  exact ⟨h, by rw [h]; norm_num⟩

/-- Claim C5 amended: the order amount equals the position percentage of
collateral capped at the collateral and then raised to the minimum 12; it
is always at least 12, it is at most the collateral whenever the collateral
is at least 12, and when the collateral is below 12 it equals 12 and hence
exceeds the collateral. -/
theorem computeOrderAmount_clamped (c p : ℚ) :
    computeOrderAmount c p = max (min (c * p) c) 12
    ∧ 12 ≤ computeOrderAmount c p
    ∧ (12 ≤ c → computeOrderAmount c p ≤ c)
    ∧ (c < 12 → computeOrderAmount c p = 12) := by
  refine ⟨rfl, le_max_right _ _, fun h => max_le (min_le_right _ _) h, fun h => ?_⟩
  have hx : min (c * p) c ≤ 12 := le_of_lt (lt_of_le_of_lt (min_le_right _ _) h)
  exact max_eq_right hx

/-- Claim C5 witness: with collateral 100 and percentage 0.2 the amount is
at least 12 and at most the collateral. -/
theorem computeOrderAmount_clamped_witness :
    12 ≤ computeOrderAmount 100 (1/5) ∧
    (12 : ℚ) ≤ 100 ∧
    computeOrderAmount 100 (1/5) ≤ 100 := by
  refine ⟨(computeOrderAmount_clamped 100 (1/5)).2.1, by norm_num, ?_⟩
  exact (computeOrderAmount_clamped 100 (1/5)).2.2.1 (by norm_num)

/-- Claim C3: on a confirmed close with distinct entry prices, the net
profit of the source equals the direction-signed two-leg formula of the
spec: the leg with the strictly higher entry price is the short leg earning
entry minus exit times quantity, the other leg is the long leg earning exit
minus entry times quantity, and the summed per-venue fees, each equal to
fee rate times quantity times the sum of that venue entry and exit prices,
are subtracted; the net profit always equals the gross total profit minus
exactly those two fees. -/
theorem calculateProfitLoss_directional (entryOrderlyPrice entryGateioPrice
    currentOrderlyPrice currentGateioPrice positionQuantity : ℚ) :
    (entryGateioPrice < entryOrderlyPrice →
      (calculateProfitLoss entryOrderlyPrice entryGateioPrice
        currentOrderlyPrice currentGateioPrice positionQuantity).netProfit =
        directionSignedNet entryOrderlyPrice currentOrderlyPrice
          entryGateioPrice currentGateioPrice positionQuantity
          (18/100000) (16/100000))
    ∧ (entryOrderlyPrice < entryGateioPrice →
      (calculateProfitLoss entryOrderlyPrice entryGateioPrice
        currentOrderlyPrice currentGateioPrice positionQuantity).netProfit =
        directionSignedNet entryGateioPrice currentGateioPrice
          entryOrderlyPrice currentOrderlyPrice positionQuantity
          (16/100000) (18/100000))
    ∧ (calculateProfitLoss entryOrderlyPrice entryGateioPrice
        currentOrderlyPrice currentGateioPrice positionQuantity).netProfit =
        (calculateProfitLoss entryOrderlyPrice entryGateioPrice
          currentOrderlyPrice currentGateioPrice positionQuantity).totalProfit -
          ((entryOrderlyPrice + currentOrderlyPrice) * positionQuantity * (18/100000)
            + (entryGateioPrice + currentGateioPrice) * positionQuantity * (16/100000)) := by
  refine ⟨fun hgt => ?_, fun hlt => ?_, ?_⟩
  · rw [calculateProfitLoss, directionSignedNet]
    simp only [if_pos hgt]
  · have hnot : ¬ entryGateioPrice < entryOrderlyPrice := not_lt.mpr (le_of_lt hlt)
    rw [calculateProfitLoss, directionSignedNet]
    simp only [if_neg hnot]
    ring
  · rw [calculateProfitLoss]

/-- Claim C3 witness: quantity 2, Orderly entry 100, Gate entry 102,
Orderly exit 103, Gate exit 101 is the buy-Orderly sell-Gate direction and
produces gross profit 8 (leg profits 6 and 2) minus the two venue fees. -/
theorem calculateProfitLoss_directional_witness :
    (100 : ℚ) < 102 ∧
    (calculateProfitLoss 100 102 103 101 2).netProfit =
      directionSignedNet 102 101 100 103 2 (16/100000) (18/100000) ∧
    directionSignedNet 102 101 100 103 2 (16/100000) (18/100000) =
      8 - 13804/100000 := by
  refine ⟨by norm_num,
    (calculateProfitLoss_directional 100 102 103 101 2).2.1 (by norm_num), ?_⟩
  rw [directionSignedNet]
  norm_num

/-- Concrete close environment for the claim C1 counterexample: both
current prices available and equal, every downstream call succeeding. -/
def reversalCloseEnv : CloseEnv :=
  ⟨some 101, some 101, true, some 101⟩

/-- Claim C1 counterexample: with entry prices Orderly 102 and Gate 100 and
both current prices equal to 101, the current sign is zero, so the claimed
strict sign flip does not hold, yet the source issues close orders. -/
theorem checkPositionForClose_fires_without_strict_flip :
    (checkPositionForClose "PERP_S_USDC" ⟨102, 100⟩ reversalCloseEnv).1 ≠ []
    ∧ ¬ strictSignFlip 102 100 101 101 := by
  have hrev : priceReversalDetected ⟨102, 100⟩ 101 101 = true := by
    rw [priceReversalDetected_iff]
    norm_num
  constructor
  · rw [checkPositionForClose]
    simp [reversalCloseEnv, hrev]
  · rw [strictSignFlip]
    norm_num

/-- Claim C1 amended: with both current prices available, the source issues
close orders if and only if the boolean entry-Orderly-strictly-higher
differs from the boolean current-Orderly-strictly-higher (so a current tie
counts as Orderly-not-higher and fires exactly when the entry had Orderly
strictly higher); the entry record is removed exactly when the check fires,
and on the fully successful path the submitted orders are the Orderly close
followed by the Gate close. -/
theorem checkPositionForClose_boolean_flip (symbol : String)
    (entry : PositionEntryPrice) (env : CloseEnv) (co cg : ℚ)
    (hco : env.currentOrderlyPrice = some co)
    (hcg : env.currentGateioPrice = some cg) :
    ((checkPositionForClose symbol entry env).1 ≠ [] ↔
      ¬ ((entry.orderlyPrice > entry.gateioPrice) ↔ (co > cg)))
    ∧ ((checkPositionForClose symbol entry env).2 =
        priceReversalDetected entry co cg)
    ∧ (priceReversalDetected entry co cg = true →
        env.orderlyCloseSucceeds = true →
        env.gateioCloseFillPrice.isSome →
        (checkPositionForClose symbol entry env).1 =
          [⟨CloseVenue.orderly, symbol⟩, ⟨CloseVenue.gateio, symbol⟩]) := by
  obtain ⟨cop, cgp, ocs, gfp⟩ := env
  simp only at hco hcg
  subst hco hcg
  rw [← priceReversalDetected_iff]
  cases hrev : priceReversalDetected entry co cg with
  | false =>
    refine ⟨?_, ?_, ?_⟩
    · rw [checkPositionForClose]
      simp [hrev]
    · rw [checkPositionForClose]
      simp [hrev]
    · intro h
      exact absurd h Bool.false_ne_true
  | true =>
    refine ⟨?_, ?_, ?_⟩
    · rw [checkPositionForClose]
      cases ocs <;> cases gfp <;> simp [hrev]
    · rw [checkPositionForClose]
      cases ocs <;> cases gfp <;> simp [hrev]
    · intro _ hocs hfill
      subst hocs
      obtain ⟨fill, hfp⟩ := Option.isSome_iff_exists.mp hfill
      subst hfp
      rw [checkPositionForClose]
      simp [hrev]

/-- Claim C1 amended witness: entry Orderly 100 and Gate 102, current
Orderly 103 and Gate 101, all downstream calls succeeding: the flip fires
and both close orders are issued in order. -/
theorem checkPositionForClose_boolean_flip_witness :
    ((checkPositionForClose "PERP_BTC_USDC" ⟨100, 102⟩
        ⟨some 103, some 101, true, some 101⟩).1 ≠ []) ∧
    ((checkPositionForClose "PERP_BTC_USDC" ⟨100, 102⟩
        ⟨some 103, some 101, true, some 101⟩).1 =
      [⟨CloseVenue.orderly, "PERP_BTC_USDC"⟩,
        ⟨CloseVenue.gateio, "PERP_BTC_USDC"⟩]) := by
  have h := checkPositionForClose_boolean_flip "PERP_BTC_USDC" ⟨100, 102⟩
    ⟨some 103, some 101, true, some 101⟩ 103 101 rfl rfl
  have hrev : priceReversalDetected ⟨100, 102⟩ 103 101 = true := by
    rw [priceReversalDetected_iff]
    norm_num
  refine ⟨h.1.mpr ?_, h.2.2 hrev rfl rfl⟩
  rw [← priceReversalDetected_iff]
  exact hrev

/-! ## The matcher and filter emitters, named for reasoning -/

/-- The per-symbol emitter inside matchSymbolData. -/
def matchEmit (normG normO : String → String) (gateioData : List GateioTicker)
    (orderlyData : List OrderlyTicker) (s : String) : Option MatchedSymbolData :=
  match jsMapOf (fun it => normG it.name) gateioData s,
      jsMapOf (fun it => normO it.symbol) orderlyData s with
  | some gateioItem, some orderlyItem =>
    some ⟨s, gateioItem.mark_price, orderlyItem.mark_price⟩
  | _, _ => none

theorem matchSymbolData_eq (normG normO : String → String)
    (gateioData : List GateioTicker) (orderlyData : List OrderlyTicker) :
    matchSymbolData normG normO gateioData orderlyData =
      (jsSetOf (gateioData.map (fun it => normG it.name) ++
        orderlyData.map (fun it => normO it.symbol))).filterMap
        (matchEmit normG normO gateioData orderlyData) := rfl

theorem matchEmit_symbol (normG normO : String → String)
    (gateioData : List GateioTicker) (orderlyData : List OrderlyTicker) :
    ∀ s m, matchEmit normG normO gateioData orderlyData s = some m →
      m.symbol = s := by
  intro s m h
  unfold matchEmit at h
  cases hg : jsMapOf (fun it => normG it.name) gateioData s with
  | none => rw [hg] at h; exact absurd h (by simp)
  | some gi =>
    cases ho : jsMapOf (fun it => normO it.symbol) orderlyData s with
    | none => rw [hg, ho] at h; exact absurd h (by simp)
    | some oi =>
      rw [hg, ho] at h
      obtain rfl := Option.some.inj h
      rfl

theorem jsMapOf_isSome_iff {α : Type} (keyOf : α → String) (data : List α)
    (s : String) : (jsMapOf keyOf data s).isSome ↔ s ∈ data.map keyOf := by
  rw [jsMapOf_eq_lastAssoc, lastAssoc_isSome_iff]

theorem matchEmit_isSome_iff (normG normO : String → String)
    (gateioData : List GateioTicker) (orderlyData : List OrderlyTicker)
    (s : String) :
    (matchEmit normG normO gateioData orderlyData s).isSome ↔
      (jsMapOf (fun it => normG it.name) gateioData s).isSome ∧
        (jsMapOf (fun it => normO it.symbol) orderlyData s).isSome := by
  unfold matchEmit
  cases hg : jsMapOf (fun it => normG it.name) gateioData s with
  | none => simp
  | some gi =>
    cases ho : jsMapOf (fun it => normO it.symbol) orderlyData s with
    | none => simp
    | some oi => simp

/-- The per-symbol emitter inside filterCommonCoinsWithVolume. -/
def filterEmit (normG normO : String → String) (gateioData : List GateioTicker)
    (orderlyData : List OrderlyTicker) (minAmount : ℚ) (s : String) :
    Option CommonCoinData :=
  match jsMapOf (fun it => normG it.name) gateioData s,
      jsMapOf (fun it => normO it.symbol) orderlyData s with
  | some gateioItem, some orderlyItem =>
    if minAmount ≤ gateioItem.quote_volume ∧ minAmount ≤ orderlyItem.amount24h then
      some ⟨s, gateioItem.mark_price, orderlyItem.mark_price,
        (gateioItem.quote_volume + orderlyItem.amount24h) / 2,
        gateioItem.quote_volume, orderlyItem.amount24h⟩
    else none
  | _, _ => none

theorem filterCommonCoinsWithVolume_eq (normG normO : String → String)
    (gateioData : List GateioTicker) (orderlyData : List OrderlyTicker)
    (minAmount : ℚ) :
    filterCommonCoinsWithVolume normG normO gateioData orderlyData minAmount =
      (jsSetOf (gateioData.map (fun it => normG it.name) ++
        orderlyData.map (fun it => normO it.symbol))).filterMap
        (filterEmit normG normO gateioData orderlyData minAmount) := rfl

theorem filterEmit_some (normG normO : String → String)
    (gateioData : List GateioTicker) (orderlyData : List OrderlyTicker)
    (minAmount : ℚ) (s : String) (c : CommonCoinData)
    (h : filterEmit normG normO gateioData orderlyData minAmount s = some c) :
    c.symbol = s ∧ c.avgVolume = (c.gateio_volume + c.orderly_volume) / 2 ∧
      minAmount ≤ c.gateio_volume ∧ minAmount ≤ c.orderly_volume := by
  unfold filterEmit at h
  cases hg : jsMapOf (fun it => normG it.name) gateioData s with
  | none => rw [hg] at h; exact absurd h (by simp)
  | some gi =>
    cases ho : jsMapOf (fun it => normO it.symbol) orderlyData s with
    | none => rw [hg, ho] at h; exact absurd h (by simp)
    | some oi =>
      rw [hg, ho] at h
      dsimp only at h
      by_cases hc : minAmount ≤ gi.quote_volume ∧ minAmount ≤ oi.amount24h
      · rw [if_pos hc] at h
        obtain rfl := Option.some.inj h
        exact ⟨rfl, rfl, hc.1, hc.2⟩
      · rw [if_neg hc] at h
        exact absurd h (by simp)

theorem filterEmit_isSome_iff (normG normO : String → String)
    (gateioData : List GateioTicker) (orderlyData : List OrderlyTicker)
    (minAmount : ℚ) (s : String) :
    (filterEmit normG normO gateioData orderlyData minAmount s).isSome ↔
      ∃ gi oi, jsMapOf (fun it => normG it.name) gateioData s = some gi ∧
        jsMapOf (fun it => normO it.symbol) orderlyData s = some oi ∧
        minAmount ≤ gi.quote_volume ∧ minAmount ≤ oi.amount24h := by
  unfold filterEmit
  cases hg : jsMapOf (fun it => normG it.name) gateioData s with
  | none => simp
  | some gi =>
    cases ho : jsMapOf (fun it => normO it.symbol) orderlyData s with
    | none => simp
    | some oi =>
      dsimp only
      by_cases hc : minAmount ≤ gi.quote_volume ∧ minAmount ≤ oi.amount24h
      · rw [if_pos hc]
        simp only [Option.isSome_some, true_iff]
        exact ⟨gi, oi, rfl, rfl, hc.1, hc.2⟩
      · rw [if_neg hc]
        simp only [Option.isSome_none, Bool.false_eq_true, false_iff]
        rintro ⟨gi2, oi2, hg2, ho2, hv1, hv2⟩
        obtain rfl := Option.some.inj hg2
        obtain rfl := Option.some.inj ho2
        exact hc ⟨hv1, hv2⟩

/-- Claim C7: the matcher yields exactly one matched record per canonical
symbol present in both venue maps, the matched symbol set is the
intersection of the two key lists (symbols present in only one venue are
silently dropped), and every matched record carries mark prices taken
verbatim from entries of the two input lists keyed by that symbol. -/
theorem matchSymbolData_is_symbol_intersection (normG normO : String → String)
    (gateioData : List GateioTicker) (orderlyData : List OrderlyTicker) :
    (((matchSymbolData normG normO gateioData orderlyData).map
        MatchedSymbolData.symbol).Nodup)
    ∧ (∀ s : String,
        (∃ m ∈ matchSymbolData normG normO gateioData orderlyData,
            m.symbol = s) ↔
          (s ∈ gateioData.map fun it => normG it.name) ∧
            (s ∈ orderlyData.map fun it => normO it.symbol))
    ∧ (∀ m ∈ matchSymbolData normG normO gateioData orderlyData,
        (∃ gi, gi ∈ gateioData ∧ normG gi.name = m.symbol ∧
          m.gateio_mark_price = gi.mark_price) ∧
        (∃ oi, oi ∈ orderlyData ∧ normO oi.symbol = m.symbol ∧
          m.orderly_mark_price = oi.mark_price)) := by
  have hf := matchEmit_symbol normG normO gateioData orderlyData
  refine ⟨?_, ?_, ?_⟩
  · rw [matchSymbolData_eq]
    exact (jsSetOf_nodup _).sublist
      (filterMap_key_sublist _ MatchedSymbolData.symbol hf _)
  · intro s
    rw [matchSymbolData_eq, mem_filterMap_key _ _ hf, mem_jsSetOf,
      List.mem_append, matchEmit_isSome_iff,
      jsMapOf_isSome_iff, jsMapOf_isSome_iff]
    tauto
  · intro m hm
    rw [matchSymbolData_eq] at hm
    obtain ⟨s, _, hemit⟩ := List.mem_filterMap.mp hm
    have hms := hf s m hemit
    unfold matchEmit at hemit
    cases hg : jsMapOf (fun it => normG it.name) gateioData s with
    | none => rw [hg] at hemit; exact absurd hemit (by simp)
    | some gi =>
      cases ho : jsMapOf (fun it => normO it.symbol) orderlyData s with
      | none => rw [hg, ho] at hemit; exact absurd hemit (by simp)
      | some oi =>
        rw [hg, ho] at hemit
        obtain rfl := Option.some.inj hemit
        rw [jsMapOf_eq_lastAssoc] at hg ho
        obtain ⟨hgmem, hgkey⟩ := lastAssoc_mem _ _ _ _ hg
        obtain ⟨homem, hokey⟩ := lastAssoc_mem _ _ _ _ ho
        exact ⟨⟨gi, hgmem, hgkey, rfl⟩, ⟨oi, homem, hokey, rfl⟩⟩

/-- Identity normalizer used by concrete witnesses: the canonical symbol is
given directly. -/
def idNorm : String → String := fun s => s

/-- Gate list for the claim C7 witness. -/
def gTickersW : List GateioTicker := [⟨"BTC", 100, 400000⟩]

/-- Orderly list for the claim C7 witness: BTC is common, ETH is only on
this venue. -/
def oTickersW : List OrderlyTicker := [⟨"BTC", 101, 350000⟩, ⟨"ETH", 5, 100⟩]

/-- Claim C7 witness: BTC, present on both venues, is matched; ETH, present
on only one venue, is silently dropped. -/
theorem matchSymbolData_is_symbol_intersection_witness :
    (∃ m ∈ matchSymbolData idNorm idNorm gTickersW oTickersW,
        m.symbol = "BTC") ∧
    ¬ (∃ m ∈ matchSymbolData idNorm idNorm gTickersW oTickersW,
        m.symbol = "ETH") := by
  have h := (matchSymbolData_is_symbol_intersection idNorm idNorm
    gTickersW oTickersW).2.1
  constructor
  · exact (h "BTC").mpr ⟨by simp [gTickersW, idNorm], by simp [oTickersW, idNorm]⟩
  · intro hex
    have hmem := ((h "ETH").mp hex).1
    simp [gTickersW, idNorm] at hmem

theorem descendingPercent_trans (a b c : PriceComparisonData)
    (hab : descendingPercent a b = true) (hbc : descendingPercent b c = true) :
    descendingPercent a c = true := by
  simp only [descendingPercent, decide_eq_true_eq] at hab hbc ⊢
  exact le_trans hbc hab

theorem descendingPercent_total (a b : PriceComparisonData) :
    (descendingPercent a b || descendingPercent b a) = true := by
  simp only [descendingPercent, Bool.or_eq_true, decide_eq_true_eq]
  exact le_total b.price_difference_percent a.price_difference_percent

/-- Claim C8: every ranked entry carries percent difference equal to the
absolute price gap divided by the Gate reference price times 100, the
ranked list is a permutation of the mapped input sorted descending by
percent difference, and the first entry, when present, has the maximal
percent difference, so the monitor picks the top divergence. -/
theorem analyzePriceDifference_ranking (matchedData : List MatchedSymbolData) :
    (∀ c ∈ analyzePriceDifference matchedData,
        c.price_difference_percent =
          |c.gateio_price - c.orderly_price| / c.gateio_price * 100)
    ∧ (analyzePriceDifference matchedData).Pairwise
        (fun a b => b.price_difference_percent ≤ a.price_difference_percent)
    ∧ (∀ top, (analyzePriceDifference matchedData).head? = some top →
        ∀ c ∈ analyzePriceDifference matchedData,
          c.price_difference_percent ≤ top.price_difference_percent)
    ∧ (analyzePriceDifference matchedData).Perm
        (matchedData.map toPriceComparison) := by
  have hperm : (analyzePriceDifference matchedData).Perm
      (matchedData.map toPriceComparison) := List.mergeSort_perm _ _
  have hpair : (analyzePriceDifference matchedData).Pairwise
      (fun a b => b.price_difference_percent ≤ a.price_difference_percent) := by
    have h := List.sorted_mergeSort descendingPercent_trans
      descendingPercent_total (matchedData.map toPriceComparison)
    exact h.imp (fun hab => by
      simpa only [descendingPercent, decide_eq_true_eq] using hab)
  refine ⟨?_, hpair, ?_, hperm⟩
  · intro c hc
    have hmem : c ∈ matchedData.map toPriceComparison := hperm.mem_iff.mp hc
    obtain ⟨item, _, rfl⟩ := List.mem_map.mp hmem
    rfl
  · intro top htop c hc
    cases hl : analyzePriceDifference matchedData with
    | nil => rw [hl] at hc; exact absurd hc (by simp)
    | cons x xs =>
      rw [hl] at htop hc hpair
      obtain rfl : x = top := by injection htop
      rcases List.mem_cons.mp hc with rfl | hmem
      · exact le_refl _
      · exact (List.pairwise_cons.mp hpair).1 c hmem

/-- Sole matched pair for the claim C8 witness. -/
def soleMatched : MatchedSymbolData := ⟨"XRP", 100, 101⟩

/-- Claim C8 witness: with Gate reference price 100 and Orderly price 101,
the percent difference is exactly 1. -/
theorem analyzePriceDifference_ranking_witness :
    ∃ c ∈ analyzePriceDifference [soleMatched],
      c.price_difference_percent = 1 := by
  have h := analyzePriceDifference_ranking [soleMatched]
  have hmem : toPriceComparison soleMatched ∈ analyzePriceDifference [soleMatched] :=
    h.2.2.2.mem_iff.mpr (by simp)
  refine ⟨toPriceComparison soleMatched, hmem, ?_⟩
  rw [h.1 (toPriceComparison soleMatched) hmem]
  norm_num [toPriceComparison, soleMatched]

/-- Claim C9: a canonical symbol appears in the volume-filtered output
exactly when it is present in both venue maps and each venue volume
individually reaches the minimum (not their average), and every output
record carries the arithmetic mean of the two leg volumes together with
both passing volumes. -/
theorem filterCommonCoins_requires_both_volumes (normG normO : String → String)
    (gateioData : List GateioTicker) (orderlyData : List OrderlyTicker)
    (minAmount : ℚ) :
    (∀ s : String,
      (∃ c ∈ filterCommonCoinsWithVolume normG normO gateioData orderlyData
          minAmount, c.symbol = s) ↔
        ∃ gi oi, jsMapOf (fun it => normG it.name) gateioData s = some gi ∧
          jsMapOf (fun it => normO it.symbol) orderlyData s = some oi ∧
          minAmount ≤ gi.quote_volume ∧ minAmount ≤ oi.amount24h)
    ∧ (∀ c ∈ filterCommonCoinsWithVolume normG normO gateioData orderlyData
        minAmount,
        c.avgVolume = (c.gateio_volume + c.orderly_volume) / 2 ∧
        minAmount ≤ c.gateio_volume ∧ minAmount ≤ c.orderly_volume) := by
  have hf : ∀ s c, filterEmit normG normO gateioData orderlyData minAmount s =
      some c → c.symbol = s :=
    fun s c h => (filterEmit_some normG normO gateioData orderlyData
      minAmount s c h).1
  constructor
  · intro s
    rw [filterCommonCoinsWithVolume_eq, mem_filterMap_key _ _ hf, mem_jsSetOf,
      List.mem_append, filterEmit_isSome_iff]
    constructor
    · rintro ⟨_, hex⟩
      exact hex
    · rintro ⟨gi, oi, hg, ho, hv1, hv2⟩
      refine ⟨Or.inl ?_, gi, oi, hg, ho, hv1, hv2⟩
      rw [← jsMapOf_isSome_iff]
      rw [hg]
      rfl
  · intro c hc
    rw [filterCommonCoinsWithVolume_eq] at hc
    obtain ⟨s, _, hemit⟩ := List.mem_filterMap.mp hc
    exact (filterEmit_some normG normO gateioData orderlyData
      minAmount s c hemit).2

/-- Gate list for the excluded side of the claim C9 witness. -/
def gVolW : List GateioTicker := [⟨"XYZ", 1, 400000⟩]

/-- Orderly list with volume 250000, below the 300000 bar. -/
def oVolLow : List OrderlyTicker := [⟨"XYZ", 1, 250000⟩]

/-- Orderly list with volume 350000, above the 300000 bar. -/
def oVolHigh : List OrderlyTicker := [⟨"XYZ", 1, 350000⟩]

/-- Claim C9 witness: volumes 400000 and 250000 against minimum 300000 are
excluded although their average passes; volumes 400000 and 350000 are
included and the record averages to 375000. -/
theorem filterCommonCoins_requires_both_volumes_witness :
    (¬ ∃ c ∈ filterCommonCoinsWithVolume idNorm idNorm gVolW oVolLow 300000,
        c.symbol = "XYZ") ∧
    (∃ c ∈ filterCommonCoinsWithVolume idNorm idNorm gVolW oVolHigh 300000,
        c.symbol = "XYZ") ∧
    (∀ c ∈ filterCommonCoinsWithVolume idNorm idNorm gVolW oVolHigh 300000,
        c.avgVolume = (c.gateio_volume + c.orderly_volume) / 2) := by
  have hlow := (filterCommonCoins_requires_both_volumes idNorm idNorm
    gVolW oVolLow 300000).1 "XYZ"
  have hhigh := (filterCommonCoins_requires_both_volumes idNorm idNorm
    gVolW oVolHigh 300000).1 "XYZ"
  have havg := (filterCommonCoins_requires_both_volumes idNorm idNorm
    gVolW oVolHigh 300000).2
  refine ⟨?_, ?_, fun c hc => (havg c hc).1⟩
  · intro hex
    obtain ⟨gi, oi, hg, ho, hv1, hv2⟩ := hlow.mp hex
    have hoi : oi = ⟨"XYZ", 1, 250000⟩ := by
      have : jsMapOf (fun it => idNorm it.symbol) oVolLow "XYZ" =
          some ⟨"XYZ", 1, 250000⟩ := rfl
      rw [this] at ho
      exact (Option.some.inj ho).symm
    rw [hoi] at hv2
    norm_num at hv2
  · refine hhigh.mpr ⟨⟨"XYZ", 1, 400000⟩, ⟨"XYZ", 1, 350000⟩, rfl, rfl, ?_, ?_⟩
    · norm_num
    · norm_num

/-- Claim C4: when a nonzero position already exists for the symbol, a
further entry attempt is a no-op: executeAutoTrading submits no orders on
either venue and leaves the entry-price ledger unchanged, whatever the
prices and the external-call outcomes. -/
theorem executeAutoTrading_noop_when_position_exists (toSym : String → String)
    (hd : HighestPriceDifferenceData) (rows : List PositionRow)
    (env : TradingEnv) (ledger : String → Option PositionEntryPrice)
    (p : PositionRow) (hp : p ∈ rows) (hsym : p.symbol = toSym hd.coin)
    (hqty : p.position_qty ≠ 0) :
    executeAutoTrading toSym hd rows env ledger = ([], ledger) := by
  have hfind : (rows.find? (fun q =>
      decide (q.symbol = toSym hd.coin) && decide (q.position_qty ≠ 0))).isSome := by
    rw [List.find?_isSome]
    exact ⟨p, hp, by simp [hsym, hqty]⟩
  obtain ⟨q, hq⟩ := Option.isSome_iff_exists.mp hfind
  rw [executeAutoTrading]
  simp only [hq]
  split <;> rfl

/-- The Orderly symbol derived from a plain coin name. -/
def perpSymbol (coin : String) : String := "PERP_" ++ coin ++ "_USDC"

/-- An empty entry-price ledger. -/
def emptyLedger : String → Option PositionEntryPrice := fun _ => none

/-- A trading environment in which every external call succeeds with simple
concrete values. -/
def fullTradingEnv : TradingEnv :=
  ⟨some 10, true, true, true, some 100, true, none, none⟩

/-- An existing nonzero position row used by the claim C4 witness. -/
def busyRow : PositionRow := ⟨"PERP_BTC_USDC", 1, 100⟩

/-- A triggering sample with the Gate price strictly higher. -/
def highGateSample : HighestPriceDifferenceData := ⟨"BTC", 101, 100, 1, 1⟩

/-- Claim C4 witness: with an existing nonzero BTC position, the entry
pipeline emits nothing and keeps the ledger. -/
theorem executeAutoTrading_noop_when_position_exists_witness :
    busyRow ∈ [busyRow] ∧ busyRow.symbol = perpSymbol highGateSample.coin ∧
    busyRow.position_qty ≠ 0 ∧
    executeAutoTrading perpSymbol highGateSample [busyRow] fullTradingEnv
      emptyLedger = ([], emptyLedger) := by
  refine ⟨List.mem_cons_self _ _, rfl, by norm_num [busyRow], ?_⟩
  exact executeAutoTrading_noop_when_position_exists perpSymbol highGateSample
    [busyRow] fullTradingEnv emptyLedger busyRow (List.mem_cons_self _ _) rfl
    (by norm_num [busyRow])

/-- A triggering sample with both venue prices exactly equal. -/
def equalPriceSample : HighestPriceDifferenceData := ⟨"BTC", 100, 100, 0, 0⟩

/-- Claim C2 counterexample: with the two prices exactly equal and no
existing position, the source still enters: it takes the
Orderly-price-not-lower branch and submits a Gate buy followed by an
Orderly sell, where the claim demands no orders at all. -/
theorem executeAutoTrading_enters_on_equal_prices :
    equalPriceSample.gateio_price = equalPriceSample.orderly_price ∧
    (executeAutoTrading perpSymbol equalPriceSample [] fullTradingEnv
        emptyLedger).1 =
      [⟨Venue.gateio, Side.buy, "PERP_BTC_USDC"⟩,
        ⟨Venue.orderly, Side.sell, "PERP_BTC_USDC"⟩] := by
  refine ⟨rfl, ?_⟩
  rw [executeAutoTrading]
  have hnot : ¬ equalPriceSample.gateio_price > equalPriceSample.orderly_price := by
    rw [equalPriceSample]
    norm_num
  rw [if_neg hnot]
  rfl

/-- Claim C2 amended: absent an existing nonzero position, when the Gate
price is strictly higher every Orderly order submitted is a buy and every
Gate order is a sell; in every other case, equal prices included, every
Gate order is a buy and every Orderly order is a sell, so equal prices are
handled by the Orderly-sell Gate-buy branch rather than by skipping. -/
theorem executeAutoTrading_direction (toSym : String → String)
    (hd : HighestPriceDifferenceData) (rows : List PositionRow)
    (env : TradingEnv) (ledger : String → Option PositionEntryPrice)
    (hno : ∀ p ∈ rows, p.symbol = toSym hd.coin → p.position_qty = 0) :
    (hd.gateio_price > hd.orderly_price →
      ∀ e ∈ (executeAutoTrading toSym hd rows env ledger).1,
        (e.venue = Venue.orderly → e.side = Side.buy) ∧
        (e.venue = Venue.gateio → e.side = Side.sell))
    ∧ (hd.gateio_price ≤ hd.orderly_price →
      ∀ e ∈ (executeAutoTrading toSym hd rows env ledger).1,
        (e.venue = Venue.orderly → e.side = Side.sell) ∧
        (e.venue = Venue.gateio → e.side = Side.buy)) := by
  have hfind : rows.find? (fun q =>
      decide (q.symbol = toSym hd.coin) && decide (q.position_qty ≠ 0)) = none := by
    rw [List.find?_eq_none]
    intro q hq
    simp only [Bool.and_eq_true, decide_eq_true_eq, not_and]
    intro hs hne
    exact hne (hno q hq hs)
  obtain ⟨gq, obs, gss, gbs, omp, oss, cp, gep⟩ := env
  refine ⟨fun hlt e he => ?_, fun hle e he => ?_⟩
  · rw [executeAutoTrading, if_pos hlt] at he
    simp only [hfind] at he
    rcases gq with _ | q <;> rcases obs with _ | _ <;> rcases gss with _ | _ <;>
        rcases cp with _ | p <;> simp at he <;>
      (rcases he with rfl | rfl | rfl) <;> simp
  · have hnot : ¬ hd.gateio_price > hd.orderly_price := not_lt.mpr hle
    rw [executeAutoTrading, if_neg hnot] at he
    simp only [hfind] at he
    rcases gbs with _ | _ <;> rcases omp with _ | mp <;> rcases oss with _ | _ <;>
        rcases cp with _ | p <;> simp at he <;>
      (rcases he with rfl | rfl | rfl) <;> simp

/-- Claim C2 amended witness: Gate price 101 strictly above Orderly price
100 with no open position: each submitted Orderly order is a buy and each
Gate order is a sell. -/
theorem executeAutoTrading_direction_witness :
    highGateSample.gateio_price > highGateSample.orderly_price ∧
    ∀ e ∈ (executeAutoTrading perpSymbol highGateSample [] fullTradingEnv
        emptyLedger).1,
      (e.venue = Venue.orderly → e.side = Side.buy) ∧
      (e.venue = Venue.gateio → e.side = Side.sell) := by
  have hlt : highGateSample.gateio_price > highGateSample.orderly_price := by
    rw [highGateSample]
    norm_num
  exact ⟨hlt, (executeAutoTrading_direction perpSymbol highGateSample []
    fullTradingEnv emptyLedger (by intro p hp; cases hp)).1 hlt⟩

end AutoCoin
